import Mathlib

/-
Verification of the t8 write-coalescing translation cache core
(src/batch.ts, src/cache.ts) against its natural-language specification.

The embedding models JavaScript records (string-keyed objects) as
association lists in enumeration order, promises as caller identifiers
settled by explicit events, and the module-level `queues`/`timers`/
`memCache` maps as functions from keys to optional values.
-/

namespace T8

/-- Configuration values consumed by the core (src/config.ts, `T8Config`);
only the fields the core logic reads are modelled. -/
structure Config where
  localesDir : String
  maxExamples : Nat
  batchSize : Nat
  batchDelay : Nat
deriving DecidableEq

/-- A JavaScript string-keyed object in enumeration order: `Record<string, string>`. -/
abbrev Obj := List (String × String)

/-- Property read `m[k]`: `some v` when the key is present, `none` when absent. -/
def objGet (m : Obj) (k : String) : Option String :=
  (m.find? (fun p => p.1 = k)).map (fun p => p.2)

/-- Property write `m[k] = v`: updates an existing key in place (keeping its
position) or appends a new key at the end, as JavaScript objects do. -/
def objSet : Obj → String → String → Obj
  | [], k, v => [(k, v)]
  | p :: rest, k, v => if p.1 = k then (k, v) :: rest else p :: objSet rest k v

/-- In-place merge `Object.assign(m, entries)`: sets each entry of `entries`
into `m` in order (src/cache.ts:135). -/
def objAssign (m entries : Obj) : Obj :=
  entries.foldl (fun acc p => objSet acc p.1 p.2) m

/-- Identifier of one caller's promise created by `enqueue`. -/
abbrev CallerId := Nat

/-- One queued request (src/batch.ts, `QueueItem`).  The stored `resolve`
callback is wrapped by each piggybacking duplicate, so firing it completes
every caller in `resolvers` (in arrival order); the stored `reject` callback
is never wrapped, so firing it completes only the first caller, `rejecter`. -/
structure QueueItem where
  text : String
  resolvers : List CallerId
  rejecter : CallerId
deriving DecidableEq

/-- The module-level mutable state of src/batch.ts: `queues` (src/batch.ts:19)
and `timers` (src/batch.ts:22), keyed by the queue key; a timer is modelled
by whether one is armed. -/
structure BatchState where
  queues : String → Option (List QueueItem)
  timers : String → Bool

/-- The state at module load: no queues, no timers. -/
def initState : BatchState := ⟨fun _ => none, fun _ => false⟩

/-- Queue key (src/batch.ts:27-29): `lang:ctx` — note it does not include the
storage root (`localesDir`). -/
def getQueueKey (lang ctx : String) : String := lang ++ ":" ++ ctx

/-- A batch detached from the queue map by `flush`, about to be processed. -/
structure FlushJob where
  items : List QueueItem
deriving DecidableEq

/-- Piggybacking (src/batch.ts:46-55): the first queue item with the given
text has its `resolve` wrapped so that the new caller is also completed on
resolution; its `reject` is left untouched. -/
def piggyback (c : CallerId) (text : String) : List QueueItem → List QueueItem
  | [] => []
  | item :: rest =>
    if item.text = text then { item with resolvers := item.resolvers ++ [c] } :: rest
    else item :: piggyback c text rest

/-- The `enqueue` entry point (src/batch.ts:34-79).  Returns the new state
and, when the batch-size threshold is reached, the batch that `flush`
synchronously detaches (src/batch.ts:62-68 and 84-96); the timer for the key
is cancelled in that case.  Otherwise a timer is armed if none is
(arming an already-armed key is idempotent in this boolean abstraction). -/
def enqueue (cfg : Config) (s : BatchState) (c : CallerId) (text lang ctx : String) :
    BatchState × Option FlushJob :=
  let key := getQueueKey lang ctx
  let queue := (s.queues key).getD []
  match queue.find? (fun item => item.text = text) with
  | some _ =>
    ({ s with queues := fun k => if k = key then some (piggyback c text queue) else s.queues k },
     none)
  | none =>
    let queue2 := queue ++ [⟨text, [c], c⟩]
    if cfg.batchSize ≤ queue2.length then
      ({ queues := fun k => if k = key then none else s.queues k,
         timers := fun k => if k = key then false else s.timers k },
       some ⟨queue2⟩)
    else
      ({ queues := fun k => if k = key then some queue2 else s.queues k,
         timers := fun k => if k = key then true else s.timers k },
       none)

/-- The synchronous prefix of `flush` (src/batch.ts:84-96): look up the
queue, return doing nothing if missing or empty, otherwise detach it from
the queue map (so new requests open a fresh batch) and hand it back as the
batch to process.  `flush` itself never touches `timers`. -/
def flushDetach (s : BatchState) (lang ctx : String) : BatchState × Option FlushJob :=
  let key := getQueueKey lang ctx
  match s.queues key with
  | none => (s, none)
  | some q =>
    if q.length = 0 then (s, none)
    else ({ s with queues := fun k => if k = key then none else s.queues k }, some ⟨q⟩)

/-- Deduplication in first-occurrence order, as `Array.from(new Set(xs))`
iterates (src/batch.ts:96). -/
def dedupFirstAux (seen : List String) : List String → List String
  | [] => []
  | x :: xs => if x ∈ seen then dedupFirstAux seen xs else x :: dedupFirstAux (x :: seen) xs

/-- The distinct texts of a detached batch (src/batch.ts:96). -/
def uniqueTexts (job : FlushJob) : List String :=
  dedupFirstAux [] (job.items.map (fun item => item.text))

/-- Errors a waiter can be rejected with (src/batch.ts:117 and 120-125). -/
inductive Err where
  | generatorFailed (msg : String)
  | noTranslation (text : String)
deriving DecidableEq

/-- Observable events of one flush, in program order: the single generator
invocation, the `setCachedBatch` persist, and each promise settlement. -/
inductive Ev where
  | genCall (texts : List String)
  | persist (entries : Obj)
  | resolveEv (c : CallerId) (v : String)
  | rejectEv (c : CallerId) (e : Err)
deriving DecidableEq

/-- Settlement of one queue item on generator success (src/batch.ts:112-119):
`translations[item.text]` truthy (present and non-empty) fires the wrapped
`resolve`, completing every caller in `resolvers`; otherwise `item.reject`
fires, completing only the first caller. -/
def settleItem (m : Obj) (item : QueueItem) : List Ev :=
  match objGet m item.text with
  | some v =>
    if v = "" then [Ev.rejectEv item.rejecter (Err.noTranslation item.text)]
    else item.resolvers.map (fun c => Ev.resolveEv c v)
  | none => [Ev.rejectEv item.rejecter (Err.noTranslation item.text)]

/-- Settlement events of the whole item list, in order (src/batch.ts:112-119). -/
def settleEvents (m : Obj) (its : List QueueItem) : List Ev :=
  (its.map (settleItem m)).flatten

/-- Event trace of a flush whose generator call succeeds with mapping `m`
(src/batch.ts:98-119): one generator call, then the persist, then the
settlement loop over the queue items in order. -/
def flushTraceSuccess (job : FlushJob) (m : Obj) : List Ev :=
  Ev.genCall (uniqueTexts job) :: Ev.persist m :: settleEvents m job.items

/-- Event trace of a flush whose generator call (or cache access) throws
(src/batch.ts:120-125): the catch block fires each item's stored `reject`,
which completes only that item's first caller; nothing is persisted. -/
def flushTraceFailure (job : FlushJob) (msg : String) : List Ev :=
  Ev.genCall (uniqueTexts job) ::
    job.items.map (fun item => Ev.rejectEv item.rejecter (Err.generatorFailed msg))

/-- Outcome of one caller's promise. -/
inductive Outcome where
  | resolved (v : String)
  | rejected (e : Err)
  | pending
deriving DecidableEq

/-- Whether an event settles the given caller's promise. -/
def settlesCaller (c : CallerId) : Ev → Bool
  | Ev.resolveEv x _ => x == c
  | Ev.rejectEv x _ => x == c
  | _ => false

/-- Whether an event is the generator invocation. -/
def isGenCall : Ev → Bool
  | Ev.genCall _ => true
  | _ => false

/-- A promise settles once: the first settlement event for a caller in the
trace decides its outcome; a caller with no settlement event stays pending. -/
def outcomeOf (tr : List Ev) (c : CallerId) : Outcome :=
  match tr.find? (settlesCaller c) with
  | some (Ev.resolveEv _ v) => Outcome.resolved v
  | some (Ev.rejectEv _ e) => Outcome.rejected e
  | _ => Outcome.pending

/-- All callers holding a completion handle on one queue item. -/
def itemCallers (item : QueueItem) : List CallerId := item.rejecter :: item.resolvers

/-- Persisted representation of one partition file. -/
inductive FileState where
  | absent
  | valid (data : Obj)
  | corrupt
deriving DecidableEq

/-- The module-level mutable state of src/cache.ts: the in-memory cache
`memCache` (src/cache.ts:10) and the filesystem contents. -/
structure Store where
  memCache : String → Option Obj
  files : String → FileState

/-- A fresh process with an empty filesystem. -/
def emptyStore : Store := ⟨fun _ => none, fun _ => FileState.absent⟩

/-- In-memory cache key (src/cache.ts:18-21): `localesDir:lang:ctx`. -/
def getCacheKey (cfg : Config) (lang ctx : String) : String :=
  cfg.localesDir ++ ":" ++ lang ++ ":" ++ ctx

/-- Cache file path (src/cache.ts:26-29): `localesDir/lang/ctx.json`. -/
def getCachePath (cfg : Config) (lang ctx : String) : String :=
  cfg.localesDir ++ "/" ++ lang ++ "/" ++ ctx ++ ".json"

/-- Lazy load (src/cache.ts:34-58): serve from `memCache` when present;
otherwise read the file — a parseable file is cached and returned, a missing
file (ENOENT) yields an empty mapping which is cached, and any other failure
(unparseable JSON) is rethrown as `Failed to load cache from <path>`. -/
def loadCache (cfg : Config) (st : Store) (lang ctx : String) :
    Except String (Obj × Store) :=
  let key := getCacheKey cfg lang ctx
  match st.memCache key with
  | some data => Except.ok (data, st)
  | none =>
    let path := getCachePath cfg lang ctx
    match st.files path with
    | FileState.valid data =>
      Except.ok (data, { st with memCache := fun k => if k = key then some data else st.memCache k })
    | FileState.absent =>
      Except.ok ([], { st with memCache := fun k => if k = key then some [] else st.memCache k })
    | FileState.corrupt => Except.error ("Failed to load cache from " ++ path)

/-- The mapping returned by `loadCache`, without the store bookkeeping. -/
def loadResult (cfg : Config) (st : Store) (lang ctx : String) : Except String Obj :=
  (loadCache cfg st lang ctx).map (fun p => p.1)

/-- The read `cache[text] || null` (src/cache.ts:104): an absent key and an
empty-string value are both reported as the absent signal `none`. -/
def jsOrNull : Option String → Option String
  | some v => if v = "" then none else some v
  | none => none

/-- Public read `getCached` (src/cache.ts:102-105). -/
def getCached (cfg : Config) (st : Store) (text lang ctx : String) :
    Except String (Option String) × Store :=
  match loadCache cfg st lang ctx with
  | Except.error e => (Except.error e, st)
  | Except.ok (cache, st1) => (Except.ok (jsOrNull (objGet cache text)), st1)

/-- Public write `setCached` (src/cache.ts:110-120), run under the file lock
(sequential in this single-critical-section model).  `writeOk` states whether
the `saveCache` disk write succeeds.  The upsert mutates the loaded object and
`memCache.set` runs before `saveCache`, so the in-memory cache holds the new
entry even when the disk write then fails. -/
def setCached (cfg : Config) (writeOk : Bool) (st : Store)
    (text translation lang ctx : String) : Except String Unit × Store :=
  let key := getCacheKey cfg lang ctx
  let path := getCachePath cfg lang ctx
  match loadCache cfg st lang ctx with
  | Except.error e => (Except.error e, st)
  | Except.ok (cache, st1) =>
    let cache2 := objSet cache text translation
    let st2 : Store :=
      { st1 with memCache := fun k => if k = key then some cache2 else st1.memCache k }
    if writeOk then
      (Except.ok (),
       { st2 with files := fun p => if p = path then FileState.valid cache2 else st2.files p })
    else
      (Except.error "EACCES: permission denied", st2)

/-- Public write `setCachedBatch` (src/cache.ts:125-139): like `setCached`
but merging a whole mapping via `Object.assign` before the single save. -/
def setCachedBatch (cfg : Config) (writeOk : Bool) (st : Store)
    (entries : Obj) (lang ctx : String) : Except String Unit × Store :=
  let key := getCacheKey cfg lang ctx
  let path := getCachePath cfg lang ctx
  match loadCache cfg st lang ctx with
  | Except.error e => (Except.error e, st)
  | Except.ok (cache, st1) =>
    let cache2 := objAssign cache entries
    let st2 : Store :=
      { st1 with memCache := fun k => if k = key then some cache2 else st1.memCache k }
    if writeOk then
      (Except.ok (),
       { st2 with files := fun p => if p = path then FileState.valid cache2 else st2.files p })
    else
      (Except.error "EACCES: permission denied", st2)

/-- Example selection (src/batch.ts:131-141): return the whole mapping when
it has at most `maxExamples` entries, else `entries.slice(-maxExamples)` —
and JavaScript `slice(-0)` is `slice(0)`, the whole array. -/
def selectExamples (cache : Obj) (maxExamples : Nat) : Obj :=
  if cache.length ≤ maxExamples then cache
  else if maxExamples = 0 then cache
  else cache.drop (cache.length - maxExamples)

/-- The default configuration (src/config.ts:16-24), used as a concrete
partition for witnesses. -/
def cfg0 : Config := ⟨"./locales", 50, 25, 20⟩

/-- A configuration with batch-size threshold 3, as in the spec's
size-triggered-flush scenario. -/
def cfg3 : Config := ⟨"./locales", 50, 3, 20⟩

/-- A store whose every partition file is corrupt, for witnesses. -/
def corruptStore : Store := ⟨fun _ => none, fun _ => FileState.corrupt⟩

/-! Helper lemmas about the embedding. -/

theorem find?_append_of_none {α : Type} {p : α → Bool} {l1 : List α}
    (h : l1.find? p = none) (l2 : List α) : (l1 ++ l2).find? p = l2.find? p := by
  induction l1 with
  | nil => simp
  | cons a l ih =>
    rw [List.find?_cons] at h
    cases hp : p a with
    | true => rw [hp] at h; cases h
    | false =>
      rw [hp] at h
      simpa [List.find?_cons, hp] using ih h

theorem find?_append_of_some {α : Type} {p : α → Bool} {l1 : List α} {a : α}
    (h : l1.find? p = some a) (l2 : List α) : (l1 ++ l2).find? p = some a := by
  induction l1 with
  | nil => simp at h
  | cons b l ih =>
    rw [List.find?_cons] at h
    cases hp : p b with
    | true => rw [hp] at h; simpa [List.find?_cons, hp] using h
    | false => rw [hp] at h; simpa [List.find?_cons, hp] using ih h

theorem objGet_objSet_self (m : Obj) (k v : String) : objGet (objSet m k v) k = some v := by
  induction m with
  | nil => simp [objSet, objGet]
  | cons p rest ih =>
    by_cases h : p.1 = k
    · simp [objSet, h, objGet]
    · simp only [objSet, if_neg h]
      simpa [objGet, List.find?_cons, h] using ih

theorem loadCache_files {cfg : Config} {st st1 : Store} {lang ctx : String} {cache : Obj}
    (h : loadCache cfg st lang ctx = Except.ok (cache, st1)) :
    ∀ p, st1.files p = st.files p := by
  simp only [loadCache] at h
  cases hm : st.memCache (getCacheKey cfg lang ctx) with
  | some data =>
    rw [hm] at h
    simp at h
    obtain ⟨h1, h2⟩ := h
    subst h2
    intro p; rfl
  | none =>
    rw [hm] at h
    cases hf : st.files (getCachePath cfg lang ctx) with
    | absent =>
      rw [hf] at h
      simp at h
      obtain ⟨h1, h2⟩ := h
      subst h2
      intro p; rfl
    | valid data =>
      rw [hf] at h
      simp at h
      obtain ⟨h1, h2⟩ := h
      subst h2
      intro p; rfl
    | corrupt =>
      rw [hf] at h
      simp at h

/-! Claim theorems. -/

/-- C6 counterexample: the claim fails at `maxCount = 0`.  JavaScript
`entries.slice(-0)` is `entries.slice(0)`, so a nonempty mapping with
`maxCount = 0` returns every pair instead of zero pairs. -/
theorem select_examples_zero_cex :
    selectExamples [("a", "x")] 0 = [("a", "x")] ∧ [("a", "x")] ≠ ([] : Obj) := by
  exact ⟨rfl, by decide⟩

/-- C6 (amended): for every `maxCount ≥ 1`, `selectExamples` returns all
pairs when the mapping has at most `maxCount` pairs, and otherwise returns
exactly the final `maxCount` pairs of the mapping in read-back order (the
most recently inserted ones). -/
theorem select_examples_bounded (cache : Obj) (m : Nat) (hm : 1 ≤ m) :
    (cache.length ≤ m → selectExamples cache m = cache) ∧
    (m < cache.length →
      (selectExamples cache m).length = m ∧
      cache.take (cache.length - m) ++ selectExamples cache m = cache) := by
  constructor
  · intro h
    simp [selectExamples, h]
  · intro h
    have h0 : m ≠ 0 := by omega
    have hle : ¬ cache.length ≤ m := by omega
    refine ⟨?_, ?_⟩
    · simp only [selectExamples, if_neg hle, if_neg h0, List.length_drop]
      omega
    · simp only [selectExamples, if_neg hle, if_neg h0]
      exact List.take_append_drop _ _

/-- C6 witness: with three cached pairs and `maxCount = 2`, the selection is
the final two pairs. -/
theorem select_examples_bounded_witness :
    (selectExamples [("a", "1"), ("b", "2"), ("c", "3")] 2).length = 2 ∧
    ([("a", "1"), ("b", "2"), ("c", "3")] : Obj).take 1 ++
      selectExamples [("a", "1"), ("b", "2"), ("c", "3")] 2 =
      [("a", "1"), ("b", "2"), ("c", "3")] := by
  have h := (select_examples_bounded [("a", "1"), ("b", "2"), ("c", "3")] 2 (by decide)).2
    (by decide)
  exact ⟨h.1, h.2⟩

/-- C9: on a first touch of a partition (nothing in the in-memory cache),
`loadCache` returns the empty mapping when no file exists, and surfaces a
load error (returning no mapping at all) when the file exists but cannot be
parsed. -/
theorem load_missing_empty_corrupt_error (cfg : Config) (st : Store) (lang ctx : String)
    (hmem : st.memCache (getCacheKey cfg lang ctx) = none) :
    (st.files (getCachePath cfg lang ctx) = FileState.absent →
      loadResult cfg st lang ctx = Except.ok []) ∧
    (st.files (getCachePath cfg lang ctx) = FileState.corrupt →
      loadResult cfg st lang ctx =
        Except.error ("Failed to load cache from " ++ getCachePath cfg lang ctx)) := by
  constructor <;> intro hf <;> simp [loadResult, loadCache, hmem, hf, Except.map]

/-- C9 witness: a fresh store with no file yields the empty mapping, and a
corrupt file yields the load error. -/
theorem load_missing_empty_corrupt_error_witness :
    loadResult cfg0 emptyStore "fr" "default" = Except.ok [] ∧
    loadResult cfg0 corruptStore "fr" "default" =
      Except.error ("Failed to load cache from " ++ getCachePath cfg0 "fr" "default") := by
  refine ⟨?_, ?_⟩
  · exact (load_missing_empty_corrupt_error cfg0 emptyStore "fr" "default" rfl).1 rfl
  · exact (load_missing_empty_corrupt_error cfg0 corruptStore "fr" "default" rfl).2 rfl

/-- C3 counterexample: the claim fails when the stored value is the empty
string.  `put` succeeds, but `getCached` reads `cache[text] || null`
(src/cache.ts:104), and the empty string is falsy, so `get` reports the
absent signal instead of the stored value. -/
theorem put_empty_string_reads_absent :
    (setCached cfg0 true emptyStore "Hello" "" "fr" "default").1 = Except.ok () ∧
    (getCached cfg0 (setCached cfg0 true emptyStore "Hello" "" "fr" "default").2
      "Hello" "fr" "default").1 = Except.ok none :=
  ⟨rfl, rfl⟩

/-- C3 (amended): for every partition and text, after `put(P,T,V)` succeeds
with a non-empty value `V`, `get(P,T)` returns `V` — and since the starting
store is arbitrary, this holds no matter how many times the put is
repeated. -/
theorem put_then_get_returns_value (cfg : Config) (st st' : Store) (text v lang ctx : String)
    (hv : v ≠ "") (h : setCached cfg true st text v lang ctx = (Except.ok (), st')) :
    getCached cfg st' text lang ctx = (Except.ok (some v), st') := by
  simp only [setCached] at h
  cases hl : loadCache cfg st lang ctx with
  | error e => rw [hl] at h; simp at h
  | ok p =>
    obtain ⟨cache, st1⟩ := p
    rw [hl] at h
    simp at h
    subst h
    simp [getCached, loadCache, jsOrNull, objGet_objSet_self, hv]

/-- C3 witness: a concrete successful put followed by a get. -/
theorem put_then_get_returns_value_witness :
    getCached cfg0 (setCached cfg0 true emptyStore "Hello" "Bonjour" "fr" "default").2
      "Hello" "fr" "default" =
      (Except.ok (some "Bonjour"),
       (setCached cfg0 true emptyStore "Hello" "Bonjour" "fr" "default").2) :=
  put_then_get_returns_value cfg0 emptyStore _ "Hello" "Bonjour" "fr" "default"
    (by decide) rfl

/-- C2 counterexample: with a failing disk write, `setCached` does surface
the error, but the in-memory partition cache is mutated and re-set before
`saveCache` runs (src/cache.ts:115-118), so memory holds the upsert that
disk never received — the claim that memory is left unchanged is false. -/
theorem failed_write_commits_memory_cex :
    (setCached cfg0 false emptyStore "Hello" "Bonjour" "fr" "default").1 =
      Except.error "EACCES: permission denied" ∧
    (setCached cfg0 false emptyStore "Hello" "Bonjour" "fr" "default").2.memCache
      (getCacheKey cfg0 "fr" "default") = some [("Hello", "Bonjour")] ∧
    emptyStore.memCache (getCacheKey cfg0 "fr" "default") = none :=
  ⟨rfl, rfl, rfl⟩

/-- C2 (amended): a Durable-Store write failure in `put`/`putBatch` does
propagate to the caller, but the in-memory partition cache is updated with
the upsert before the write is attempted, so a failed write leaves memory
holding the new entries while disk does not (they diverge); the disk files
are unchanged. -/
theorem failed_write_propagates_and_memory_diverges (cfg : Config) (st st1 : Store)
    (cache entries : Obj) (text v lang ctx : String)
    (h : loadCache cfg st lang ctx = Except.ok (cache, st1)) :
    ((setCached cfg false st text v lang ctx).1 =
        Except.error "EACCES: permission denied" ∧
      (setCached cfg false st text v lang ctx).2.memCache (getCacheKey cfg lang ctx) =
        some (objSet cache text v) ∧
      ∀ p, (setCached cfg false st text v lang ctx).2.files p = st.files p) ∧
    ((setCachedBatch cfg false st entries lang ctx).1 =
        Except.error "EACCES: permission denied" ∧
      (setCachedBatch cfg false st entries lang ctx).2.memCache (getCacheKey cfg lang ctx) =
        some (objAssign cache entries) ∧
      ∀ p, (setCachedBatch cfg false st entries lang ctx).2.files p = st.files p) := by
  have hfiles := loadCache_files h
  constructor
  · refine ⟨?_, ?_, ?_⟩
    · simp [setCached, h]
    · simp [setCached, h]
    · intro p
      simp only [setCached, h]
      simpa using hfiles p
  · refine ⟨?_, ?_, ?_⟩
    · simp [setCachedBatch, h]
    · simp [setCachedBatch, h]
    · intro p
      simp only [setCachedBatch, h]
      simpa using hfiles p

/-- C2 witness: the amended behavior at a concrete partition and entry. -/
theorem failed_write_propagates_and_memory_diverges_witness :
    (setCached cfg0 false emptyStore "Hi" "Salut" "fr" "default").1 =
      Except.error "EACCES: permission denied" ∧
    (setCachedBatch cfg0 false emptyStore [("Hi", "Salut")] "fr" "default").2.memCache
      (getCacheKey cfg0 "fr" "default") = some (objAssign [] [("Hi", "Salut")]) := by
  have h := failed_write_propagates_and_memory_diverges cfg0 emptyStore
    { emptyStore with
      memCache := fun k =>
        if k = getCacheKey cfg0 "fr" "default" then some [] else emptyStore.memCache k }
    [] [("Hi", "Salut")] "Hi" "Salut" "fr" "default" rfl
  exact ⟨h.1.1, h.2.2.1⟩

/-- C8: when a request makes the collecting batch's distinct-text count
reach the configured threshold, the timer for that partition is cancelled,
and the batch is detached synchronously (the queue entry is gone, so the
next request opens a fresh batch), carrying all queued items plus the new
one. -/
theorem size_threshold_flush (cfg : Config) (s : BatchState) (c : CallerId)
    (text lang ctx : String)
    (hnew : ∀ item ∈ (s.queues (getQueueKey lang ctx)).getD [], item.text ≠ text)
    (hsize : cfg.batchSize ≤ ((s.queues (getQueueKey lang ctx)).getD []).length + 1) :
    (enqueue cfg s c text lang ctx).2 =
      some ⟨(s.queues (getQueueKey lang ctx)).getD [] ++ [⟨text, [c], c⟩]⟩ ∧
    (enqueue cfg s c text lang ctx).1.queues (getQueueKey lang ctx) = none ∧
    (enqueue cfg s c text lang ctx).1.timers (getQueueKey lang ctx) = false := by
  have hfind : ((s.queues (getQueueKey lang ctx)).getD []).find?
      (fun item => item.text = text) = none := by
    rw [List.find?_eq_none]
    intro item hi
    simpa using hnew item hi
  simp [enqueue, hfind, hsize]

/-- C8 witness: with threshold 3, the third distinct request flushes
immediately with all three texts, leaving no queue and no timer. -/
theorem size_threshold_flush_witness :
    (enqueue cfg3
        (enqueue cfg3 (enqueue cfg3 initState 0 "a" "fr" "default").1
          1 "b" "fr" "default").1 2 "c" "fr" "default").2 =
      some ⟨[⟨"a", [0], 0⟩, ⟨"b", [1], 1⟩, ⟨"c", [2], 2⟩]⟩ ∧
    (enqueue cfg3
        (enqueue cfg3 (enqueue cfg3 initState 0 "a" "fr" "default").1
          1 "b" "fr" "default").1 2 "c" "fr" "default").1.queues
      (getQueueKey "fr" "default") = none ∧
    (enqueue cfg3
        (enqueue cfg3 (enqueue cfg3 initState 0 "a" "fr" "default").1
          1 "b" "fr" "default").1 2 "c" "fr" "default").1.timers
      (getQueueKey "fr" "default") = false := by
  have h := size_threshold_flush cfg3
    (enqueue cfg3 (enqueue cfg3 initState 0 "a" "fr" "default").1 1 "b" "fr" "default").1
    2 "c" "fr" "default" (by decide) (by decide)
  exact ⟨h.1, h.2.1, h.2.2⟩

/-- C1 (code bug evaluated): two callers request the same text, the second
piggybacks, and the flush's generator call fails.  Only the first caller's
promise is rejected; the piggybacked caller's promise is left pending
forever, because piggybacking wraps only `resolve` and never `reject`
(src/batch.ts:49-53 versus 120-125). -/
theorem failed_flush_rejects_only_first_waiter :
    (flushDetach
        (enqueue cfg0 (enqueue cfg0 initState 0 "Hello" "fr" "default").1
          1 "Hello" "fr" "default").1 "fr" "default").2 =
      some ⟨[⟨"Hello", [0, 1], 0⟩]⟩ ∧
    outcomeOf (flushTraceFailure ⟨[⟨"Hello", [0, 1], 0⟩]⟩ "ECONNRESET") 0 =
      Outcome.rejected (Err.generatorFailed "ECONNRESET") ∧
    outcomeOf (flushTraceFailure ⟨[⟨"Hello", [0, 1], 0⟩]⟩ "ECONNRESET") 1 =
      Outcome.pending :=
  ⟨rfl, rfl, rfl⟩

/-- C10: in the trace of a successful flush, the persist event sits at
index 1, before every promise resolution: whenever index `i` holds a
resolution event, `1 < i` and index 1 holds the persist of the batch's
translations (src/batch.ts:109 runs before the resolve loop at 112-119). -/
theorem persist_precedes_resolution (job : FlushJob) (m : Obj) (i : Nat)
    (c : CallerId) (v : String)
    (h : (flushTraceSuccess job m)[i]? = some (Ev.resolveEv c v)) :
    1 < i ∧ (flushTraceSuccess job m)[1]? = some (Ev.persist m) := by
  refine ⟨?_, by simp [flushTraceSuccess]⟩
  match i with
  | 0 => simp [flushTraceSuccess] at h
  | 1 => simp [flushTraceSuccess] at h
  | n + 2 => omega

/-- C10 witness: a one-item batch resolving at index 2, after the persist
at index 1. -/
theorem persist_precedes_resolution_witness :
    1 < 2 ∧ (flushTraceSuccess ⟨[⟨"a", [0], 0⟩]⟩ [("a", "A")])[1]? =
      some (Ev.persist [("a", "A")]) :=
  persist_precedes_resolution ⟨[⟨"a", [0], 0⟩]⟩ [("a", "A")] 2 0 "A" rfl

/-- Splitting a list around a separator element that occurs in neither
left part is unambiguous. -/
theorem append_sep_inj {α : Type} (sep : α) :
    ∀ (a1 a2 b1 b2 : List α), sep ∉ a1 → sep ∉ a2 →
      a1 ++ sep :: b1 = a2 ++ sep :: b2 → a1 = a2 ∧ b1 = b2 := by
  intro a1
  induction a1 with
  | nil =>
    intro a2 b1 b2 _ h2 heq
    cases a2 with
    | nil =>
      simp only [List.nil_append] at heq
      exact ⟨rfl, (List.cons.injEq _ _ _ _ ▸ heq).2⟩
    | cons y ys =>
      simp only [List.nil_append, List.cons_append, List.cons.injEq] at heq
      exact absurd (heq.1 ▸ List.mem_cons_self y ys) h2
  | cons x xs ih =>
    intro a2 b1 b2 h1 h2 heq
    cases a2 with
    | nil =>
      simp only [List.nil_append, List.cons_append, List.cons.injEq] at heq
      exact absurd (heq.1 ▸ List.mem_cons_self x xs) h1
    | cons y ys =>
      simp only [List.cons_append, List.cons.injEq] at heq
      obtain ⟨hxy, htl⟩ := heq
      have hrec := ih ys b1 b2 (fun hm => h1 (List.mem_cons_of_mem _ hm))
        (fun hm => h2 (List.mem_cons_of_mem _ hm)) htl
      exact ⟨by rw [hxy, hrec.1], hrec.2⟩

theorem getQueueKey_inj {l1 c1 l2 c2 : String}
    (h1 : ':' ∉ l1.data) (h2 : ':' ∉ l2.data)
    (heq : getQueueKey l1 c1 = getQueueKey l2 c2) : l1 = l2 ∧ c1 = c2 := by
  have hcolon : (":" : String).data = [':'] := rfl
  have hd := congrArg String.data heq
  simp only [getQueueKey, String.data_append, hcolon, List.append_assoc,
    List.singleton_append] at hd
  have h := append_sep_inj ':' l1.data l2.data c1.data c2.data h1 h2 hd
  exact ⟨String.ext h.1, String.ext h.2⟩

/-- C5 (amended): two partitions whose (language, context) pairs differ —
with colon-free components, since the queue key is the colon-joined string —
have distinct queue keys, and a request for one never touches the other's
queue or timer state.  The storage root is not part of the queue key
(src/batch.ts:27-29), so partitions differing only in storage root share
batch state (see the counterexample); per-partition cache state does include
the storage root (src/cache.ts:18-21). -/
theorem partition_queue_isolation (l1 c1 l2 c2 : String)
    (h1 : ':' ∉ l1.data) (h2 : ':' ∉ l2.data)
    (hne : (l1, c1) ≠ (l2, c2)) :
    getQueueKey l1 c1 ≠ getQueueKey l2 c2 ∧
    ∀ (cfg : Config) (s : BatchState) (c : CallerId) (text : String),
      (enqueue cfg s c text l1 c1).1.queues (getQueueKey l2 c2) =
        s.queues (getQueueKey l2 c2) ∧
      (enqueue cfg s c text l1 c1).1.timers (getQueueKey l2 c2) =
        s.timers (getQueueKey l2 c2) := by
  have hkey : getQueueKey l1 c1 ≠ getQueueKey l2 c2 := by
    intro h
    obtain ⟨ha, hb⟩ := getQueueKey_inj h1 h2 h
    exact hne (by rw [ha, hb])
  refine ⟨hkey, ?_⟩
  intro cfg s c text
  have hk2 : ¬ (getQueueKey l2 c2 = getQueueKey l1 c1) := fun h => hkey h.symm
  cases hfind : ((s.queues (getQueueKey l1 c1)).getD []).find?
      (fun item => item.text = text) with
  | some it => simp [enqueue, hfind, hk2]
  | none =>
    by_cases hsz : cfg.batchSize ≤ ((s.queues (getQueueKey l1 c1)).getD []).length + 1
    · simp [enqueue, hfind, hsz, hk2]
    · simp [enqueue, hfind, hsz, hk2]

/-- C5 witness: a request for (fr, default) leaves (de, default)'s queue and
timer untouched, and their keys differ. -/
theorem partition_queue_isolation_witness :
    getQueueKey "fr" "default" ≠ getQueueKey "de" "default" ∧
    (enqueue cfg0 initState 0 "Hello" "fr" "default").1.queues
      (getQueueKey "de" "default") = initState.queues (getQueueKey "de" "default") ∧
    (enqueue cfg0 initState 0 "Hello" "fr" "default").1.timers
      (getQueueKey "de" "default") = initState.timers (getQueueKey "de" "default") := by
  have h := partition_queue_isolation "fr" "default" "de" "default"
    (by decide) (by decide) (by decide)
  exact ⟨h.1, (h.2 cfg0 initState 0 "Hello").1, (h.2 cfg0 initState 0 "Hello").2⟩

/-- A partition differing only in storage root, for the C5 counterexample. -/
def cfgA : Config := ⟨"./localesA", 50, 25, 20⟩

/-- A second partition differing only in storage root, for the C5
counterexample. -/
def cfgB : Config := ⟨"./localesB", 50, 25, 20⟩

/-- C5 counterexample: the queue key ignores the storage root, so a request
under a different `localesDir` for the same (lang, ctx) piggybacks onto the
very same batch entry: partitions differing only in storage root do join the
same batch and share queue state. -/
theorem partition_queue_shared_across_roots :
    cfgA.localesDir ≠ cfgB.localesDir ∧
    (enqueue cfgB (enqueue cfgA initState 0 "Hello" "fr" "default").1
        1 "Hello" "fr" "default").1.queues (getQueueKey "fr" "default") =
      some [⟨"Hello", [0, 1], 0⟩] :=
  ⟨by decide, rfl⟩

/-! Settlement machinery: which callers the events of a flush complete. -/

theorem settlesCaller_genCall (c : CallerId) (ts : List String) :
    settlesCaller c (Ev.genCall ts) = false := rfl

theorem settlesCaller_persist (c : CallerId) (m : Obj) :
    settlesCaller c (Ev.persist m) = false := rfl

theorem settleItem_callers {m : Obj} {item : QueueItem} {c : CallerId}
    (h : c ∉ itemCallers item) :
    ∀ ev ∈ settleItem m item, settlesCaller c ev = false := by
  intro ev hev
  have hrej : ¬ item.rejecter = c := by
    intro hc
    exact h (by rw [itemCallers, hc]; exact List.mem_cons_self _ _)
  unfold settleItem at hev
  cases hg : objGet m item.text with
  | none =>
    rw [hg] at hev
    have hev2 : ev ∈ [Ev.rejectEv item.rejecter (Err.noTranslation item.text)] := hev
    simp only [List.mem_singleton] at hev2
    subst hev2
    simp [settlesCaller, hrej]
  | some v =>
    rw [hg] at hev
    have hev2 : ev ∈ (if v = "" then [Ev.rejectEv item.rejecter (Err.noTranslation item.text)]
        else item.resolvers.map (fun x => Ev.resolveEv x v)) := hev
    by_cases hv : v = ""
    · rw [if_pos hv] at hev2
      simp only [List.mem_singleton] at hev2
      subst hev2
      simp [settlesCaller, hrej]
    · rw [if_neg hv] at hev2
      simp only [List.mem_map] at hev2
      obtain ⟨x, hx, hev2⟩ := hev2
      subst hev2
      have hxc : ¬ x = c := by
        intro hc
        exact h (by rw [itemCallers]; exact List.mem_cons_of_mem _ (hc ▸ hx))
      simp [settlesCaller, hxc]

theorem settleEvents_no_caller {m : Obj} {c : CallerId} {its : List QueueItem}
    (h : ∀ item ∈ its, c ∉ itemCallers item) :
    ∀ ev ∈ settleEvents m its, settlesCaller c ev = false := by
  intro ev hev
  unfold settleEvents at hev
  simp only [List.mem_flatten, List.mem_map] at hev
  obtain ⟨l, ⟨item, hitem, rfl⟩, hev⟩ := hev
  exact settleItem_callers (h item hitem) ev hev

theorem outcomeOf_skip {tr1 tr2 : List Ev} {c : CallerId}
    (h : ∀ ev ∈ tr1, settlesCaller c ev = false) :
    outcomeOf (tr1 ++ tr2) c = outcomeOf tr2 c := by
  have hn : tr1.find? (settlesCaller c) = none := by
    rw [List.find?_eq_none]
    intro ev hev
    simp [h ev hev]
  unfold outcomeOf
  rw [find?_append_of_none hn]

theorem outcomeOf_cons_skip {ev : Ev} {tr : List Ev} {c : CallerId}
    (h : settlesCaller c ev = false) :
    outcomeOf (ev :: tr) c = outcomeOf tr c := by
  unfold outcomeOf
  rw [List.find?_cons_of_neg]
  simp [h]

theorem find_resolve_of_mem {c : CallerId} {v : String} {rs : List CallerId} (h : c ∈ rs) :
    (rs.map (fun x => Ev.resolveEv x v)).find? (settlesCaller c) =
      some (Ev.resolveEv c v) := by
  induction rs with
  | nil => cases h
  | cons a l ih =>
    rw [List.map_cons]
    by_cases hac : a = c
    · subst hac
      rw [List.find?_cons_of_pos]
      simp [settlesCaller]
    · have hcl : c ∈ l := by
        cases List.mem_cons.mp h with
        | inl hh => exact absurd hh.symm hac
        | inr hh => exact hh
      rw [List.find?_cons_of_neg]
      · exact ih hcl
      · simp [settlesCaller, hac]

theorem settleEvents_split (m : Obj) (pre post : List QueueItem) (item : QueueItem) :
    settleEvents m (pre ++ item :: post) =
      settleEvents m pre ++ (settleItem m item ++ settleEvents m post) := by
  simp [settleEvents]

theorem outcome_resolve_core (ts : List String) (m : Obj) (pre post : List QueueItem)
    (item : QueueItem) (c : CallerId) (v : String)
    (hpre : ∀ it ∈ pre, c ∉ itemCallers it)
    (hv : objGet m item.text = some v) (hv2 : v ≠ "") (hc : c ∈ item.resolvers) :
    outcomeOf (Ev.genCall ts :: Ev.persist m :: settleEvents m (pre ++ item :: post)) c =
      Outcome.resolved v := by
  rw [outcomeOf_cons_skip (settlesCaller_genCall _ _),
    outcomeOf_cons_skip (settlesCaller_persist _ _), settleEvents_split,
    outcomeOf_skip (settleEvents_no_caller hpre)]
  have hitem : settleItem m item = item.resolvers.map (fun x => Ev.resolveEv x v) := by
    simp [settleItem, hv, hv2]
  rw [hitem]
  unfold outcomeOf
  rw [find?_append_of_some (find_resolve_of_mem hc)]

theorem outcome_reject_core (ts : List String) (m : Obj) (pre post : List QueueItem)
    (item : QueueItem)
    (hpre : ∀ it ∈ pre, item.rejecter ∉ itemCallers it)
    (habs : objGet m item.text = none ∨ objGet m item.text = some "") :
    outcomeOf (Ev.genCall ts :: Ev.persist m :: settleEvents m (pre ++ item :: post))
        item.rejecter =
      Outcome.rejected (Err.noTranslation item.text) := by
  rw [outcomeOf_cons_skip (settlesCaller_genCall _ _),
    outcomeOf_cons_skip (settlesCaller_persist _ _), settleEvents_split,
    outcomeOf_skip (settleEvents_no_caller hpre)]
  have hitem : settleItem m item = [Ev.rejectEv item.rejecter (Err.noTranslation item.text)] := by
    cases habs with
    | inl h => simp [settleItem, h]
    | inr h => simp [settleItem, h]
  rw [hitem]
  unfold outcomeOf
  rw [List.cons_append, List.find?_cons_of_pos]
  simp [settlesCaller]

theorem outcome_pending_core (ts : List String) (m : Obj) (pre post : List QueueItem)
    (item : QueueItem) (c : CallerId)
    (hpre : ∀ it ∈ pre, c ∉ itemCallers it)
    (hpost : ∀ it ∈ post, c ∉ itemCallers it)
    (habs : objGet m item.text = none ∨ objGet m item.text = some "")
    (hne : c ≠ item.rejecter) :
    outcomeOf (Ev.genCall ts :: Ev.persist m :: settleEvents m (pre ++ item :: post)) c =
      Outcome.pending := by
  rw [outcomeOf_cons_skip (settlesCaller_genCall _ _),
    outcomeOf_cons_skip (settlesCaller_persist _ _), settleEvents_split,
    outcomeOf_skip (settleEvents_no_caller hpre)]
  have hitem : settleItem m item = [Ev.rejectEv item.rejecter (Err.noTranslation item.text)] := by
    cases habs with
    | inl h => simp [settleItem, h]
    | inr h => simp [settleItem, h]
  rw [hitem]
  have hhead : ∀ ev ∈ [Ev.rejectEv item.rejecter (Err.noTranslation item.text)],
      settlesCaller c ev = false := by
    intro ev hev
    simp only [List.mem_singleton] at hev
    subst hev
    simp only [settlesCaller]
    exact beq_eq_false_iff_ne.mpr (fun h => hne h.symm)
  rw [outcomeOf_skip hhead]
  have hn : (settleEvents m post).find? (settlesCaller c) = none := by
    rw [List.find?_eq_none]
    intro ev hev
    simp [settleEvents_no_caller hpost ev hev]
  unfold outcomeOf
  rw [hn]

/-- Well-formedness of a detached batch as `enqueue` builds it: no caller
holds a completion handle on two different queue items. -/
def DisjointCallers (job : FlushJob) : Prop :=
  job.items.Pairwise (fun i j => ∀ x, x ∈ itemCallers i → x ∉ itemCallers j)

/-- C4 counterexample: a batch of texts "a" (two waiters, the second
piggybacked) and "b" (one waiter), where the generator's mapping contains
"a" with the empty string and "b" with "B".  Although the mapping contains
"a", its first waiter is rejected (JavaScript truthiness treats the empty
translation as missing, src/batch.ts:114), its piggybacked waiter is left
pending (reject is never chained), and only "b" resolves. -/
theorem partial_response_settlement_cex :
    objGet [("a", ""), ("b", "B")] "a" = some "" ∧
    outcomeOf (flushTraceSuccess ⟨[⟨"a", [0, 1], 0⟩, ⟨"b", [2], 2⟩]⟩
      [("a", ""), ("b", "B")]) 0 = Outcome.rejected (Err.noTranslation "a") ∧
    outcomeOf (flushTraceSuccess ⟨[⟨"a", [0, 1], 0⟩, ⟨"b", [2], 2⟩]⟩
      [("a", ""), ("b", "B")]) 1 = Outcome.pending ∧
    outcomeOf (flushTraceSuccess ⟨[⟨"a", [0, 1], 0⟩, ⟨"b", [2], 2⟩]⟩
      [("a", ""), ("b", "B")]) 2 = Outcome.resolved "B" :=
  ⟨rfl, rfl, rfl, rfl⟩

/-- C4 (amended): in a successful flush, for each distinct text of the
batch: if the generator's mapping gives it a non-empty value, every waiter
on that text resolves with that value; if the mapping omits it or maps it to
the empty string, the first waiter on that text is rejected with the
"no translation returned" error while its piggybacked duplicate waiters stay
pending — and the other texts of the batch settle independently. -/
theorem partial_response_settlement (job : FlushJob) (m : Obj) (item : QueueItem)
    (hwf : DisjointCallers job) (hmem : item ∈ job.items) :
    (∀ v, objGet m item.text = some v → v ≠ "" →
      ∀ c ∈ item.resolvers,
        outcomeOf (flushTraceSuccess job m) c = Outcome.resolved v) ∧
    ((objGet m item.text = none ∨ objGet m item.text = some "") →
      outcomeOf (flushTraceSuccess job m) item.rejecter =
        Outcome.rejected (Err.noTranslation item.text)) ∧
    ((objGet m item.text = none ∨ objGet m item.text = some "") →
      ∀ c ∈ item.resolvers, c ≠ item.rejecter →
        outcomeOf (flushTraceSuccess job m) c = Outcome.pending) := by
  obtain ⟨pre, post, heq⟩ := List.append_of_mem hmem
  have htr : flushTraceSuccess job m =
      Ev.genCall (uniqueTexts job) :: Ev.persist m ::
        settleEvents m (pre ++ item :: post) := by
    rw [flushTraceSuccess, heq]
  rw [DisjointCallers, heq, List.pairwise_append] at hwf
  obtain ⟨hpre', hcons, hcross⟩ := hwf
  rw [List.pairwise_cons] at hcons
  obtain ⟨hitempost, hpost'⟩ := hcons
  have hpre : ∀ c, c ∈ itemCallers item → ∀ it ∈ pre, c ∉ itemCallers it := by
    intro c hc it hit hmem2
    exact hcross it hit item (List.mem_cons_self _ _) c hmem2 hc
  have hpost : ∀ c, c ∈ itemCallers item → ∀ it ∈ post, c ∉ itemCallers it := by
    intro c hc it hit
    exact fun hmem2 => (hitempost it hit c hc) hmem2
  refine ⟨?_, ?_, ?_⟩
  · intro v hv hv2 c hc
    rw [htr]
    exact outcome_resolve_core _ m pre post item c v
      (hpre c (List.mem_cons_of_mem _ hc)) hv hv2 hc
  · intro habs
    rw [htr]
    exact outcome_reject_core _ m pre post item
      (hpre item.rejecter (List.mem_cons_self _ _)) habs
  · intro habs c hc hne
    rw [htr]
    exact outcome_pending_core _ m pre post item c
      (hpre c (List.mem_cons_of_mem _ hc)) (hpost c (List.mem_cons_of_mem _ hc)) habs hne

/-- C4 witness: a singleton batch whose text is mapped to a non-empty value
resolves its waiter with that value. -/
theorem partial_response_settlement_witness :
    outcomeOf (flushTraceSuccess ⟨[⟨"a", [0], 0⟩]⟩ [("a", "A")]) 0 =
      Outcome.resolved "A" := by
  have h := partial_response_settlement ⟨[⟨"a", [0], 0⟩]⟩ [("a", "A")] ⟨"a", [0], 0⟩
    (by simp [DisjointCallers]) (by simp)
  exact h.1 "A" rfl (by decide) 0 (by simp)

/-! Machinery for the dedup/piggyback claim: the effect of a run of
`enqueue` calls for the same text. -/

/-- Sequential `enqueue` of a list of callers for the same text and
partition, keeping only the state (no flush fires in the scenarios where
this is used). -/
def enqueueAll (cfg : Config) (s : BatchState) (callers : List CallerId)
    (text lang ctx : String) : BatchState :=
  callers.foldl (fun st c => (enqueue cfg st c text lang ctx).1) s

theorem piggyback_append (c : CallerId) (X : String) (q : List QueueItem)
    (r : List CallerId) (c0 : CallerId)
    (hX : ∀ item ∈ q, item.text ≠ X) :
    piggyback c X (q ++ [⟨X, r, c0⟩]) = q ++ [⟨X, r ++ [c], c0⟩] := by
  induction q with
  | nil => simp [piggyback]
  | cons it rest ih =>
    have hit : ¬ it.text = X := hX it (List.mem_cons_self _ _)
    simp only [List.cons_append, piggyback, if_neg hit, List.append_eq]
    rw [ih (fun item hm => hX item (List.mem_cons_of_mem _ hm))]

theorem enqueue_first_push (cfg : Config) (s : BatchState) (c0 : CallerId)
    (X lang ctx : String)
    (hX : ∀ item ∈ (s.queues (getQueueKey lang ctx)).getD [], item.text ≠ X)
    (hsz : ((s.queues (getQueueKey lang ctx)).getD []).length + 1 < cfg.batchSize) :
    (enqueue cfg s c0 X lang ctx).1.queues (getQueueKey lang ctx) =
      some ((s.queues (getQueueKey lang ctx)).getD [] ++ [⟨X, [c0], c0⟩]) := by
  have hfind : ((s.queues (getQueueKey lang ctx)).getD []).find?
      (fun item => item.text = X) = none := by
    rw [List.find?_eq_none]
    intro item hi
    simpa using hX item hi
  have hns : ¬ (cfg.batchSize ≤ ((s.queues (getQueueKey lang ctx)).getD []).length + 1) := by
    omega
  simp [enqueue, hfind, hns]

theorem enqueueAll_piggyback (cfg : Config) (X lang ctx : String)
    (q : List QueueItem) (c0 : CallerId) (hX : ∀ item ∈ q, item.text ≠ X) :
    ∀ (cs : List CallerId) (s : BatchState) (r : List CallerId),
      s.queues (getQueueKey lang ctx) = some (q ++ [⟨X, r, c0⟩]) →
      (enqueueAll cfg s cs X lang ctx).queues (getQueueKey lang ctx) =
        some (q ++ [⟨X, r ++ cs, c0⟩]) := by
  intro cs
  induction cs with
  | nil =>
    intro s r hq
    simpa [enqueueAll] using hq
  | cons c cs ih =>
    intro s r hq
    have hfq : q.find? (fun item => item.text = X) = none := by
      rw [List.find?_eq_none]
      intro it hit
      simpa using hX it hit
    have hfind : ((s.queues (getQueueKey lang ctx)).getD []).find?
        (fun item => item.text = X) = some ⟨X, r, c0⟩ := by
      rw [hq]
      show ((q ++ [(⟨X, r, c0⟩ : QueueItem)]).find? (fun item => item.text = X)) =
        some (⟨X, r, c0⟩ : QueueItem)
      rw [find?_append_of_none hfq]
      simp [List.find?]
    have hstep : (enqueue cfg s c X lang ctx).1.queues (getQueueKey lang ctx) =
        some (q ++ [⟨X, r ++ [c], c0⟩]) := by
      simp only [enqueue, hfind]
      have hpb : piggyback c X ((s.queues (getQueueKey lang ctx)).getD []) =
          q ++ [⟨X, r ++ [c], c0⟩] := by
        rw [hq]
        exact piggyback_append c X q r c0 hX
      simp [hpb]
    have hrest := ih (enqueue cfg s c X lang ctx).1 (r ++ [c]) hstep
    have hcs : (r ++ [c]) ++ cs = r ++ c :: cs := by simp
    rw [hcs] at hrest
    simpa [enqueueAll] using hrest

theorem mem_dedupFirstAux (a : String) :
    ∀ (l seen : List String), a ∈ dedupFirstAux seen l ↔ (a ∈ l ∧ a ∉ seen) := by
  intro l
  induction l with
  | nil =>
    intro seen
    simp [dedupFirstAux]
  | cons x xs ih =>
    intro seen
    by_cases hx : x ∈ seen
    · rw [dedupFirstAux, if_pos hx, ih]
      constructor
      · rintro ⟨h1, h2⟩
        exact ⟨List.mem_cons_of_mem _ h1, h2⟩
      · rintro ⟨h1, h2⟩
        cases List.mem_cons.mp h1 with
        | inl he => exact absurd (by rw [he]; exact hx) h2
        | inr hm => exact ⟨hm, h2⟩
    · rw [dedupFirstAux, if_neg hx]
      simp only [List.mem_cons, ih]
      by_cases hax : a = x
      · subst hax
        simp [hx]
      · simp [hax]

theorem nodup_dedupFirstAux : ∀ (l seen : List String), (dedupFirstAux seen l).Nodup := by
  intro l
  induction l with
  | nil =>
    intro seen
    simp [dedupFirstAux]
  | cons x xs ih =>
    intro seen
    by_cases hx : x ∈ seen
    · rw [dedupFirstAux, if_pos hx]
      exact ih seen
    · rw [dedupFirstAux, if_neg hx]
      rw [List.nodup_cons]
      refine ⟨?_, ih (x :: seen)⟩
      intro hmem
      rw [mem_dedupFirstAux] at hmem
      exact hmem.2 (List.mem_cons_self _ _)

theorem settleEvents_no_genCall (m : Obj) (its : List QueueItem) :
    ∀ ev ∈ settleEvents m its, isGenCall ev = false := by
  intro ev hev
  unfold settleEvents at hev
  simp only [List.mem_flatten, List.mem_map] at hev
  obtain ⟨l, ⟨item, hitem, rfl⟩, hev⟩ := hev
  unfold settleItem at hev
  cases hg : objGet m item.text with
  | none =>
    rw [hg] at hev
    have h2 : ev ∈ [Ev.rejectEv item.rejecter (Err.noTranslation item.text)] := hev
    simp only [List.mem_singleton] at h2
    subst h2
    rfl
  | some v =>
    rw [hg] at hev
    have h2 : ev ∈ (if v = "" then [Ev.rejectEv item.rejecter (Err.noTranslation item.text)]
        else item.resolvers.map (fun x => Ev.resolveEv x v)) := hev
    by_cases hv : v = ""
    · rw [if_pos hv] at h2
      simp only [List.mem_singleton] at h2
      subst h2
      rfl
    · rw [if_neg hv] at h2
      simp only [List.mem_map] at h2
      obtain ⟨x, hx, h2⟩ := h2
      subst h2
      rfl

/-- C7 counterexample: two callers request "X" before any flush; the batch
does carry "X" once, but when the generator's mapping assigns "X" the empty
string, the callers do not all resolve with that value: the first is
rejected and the piggybacked one stays pending. -/
theorem dedup_piggyback_cex :
    (flushDetach
        (enqueue cfg0 (enqueue cfg0 initState 0 "X" "fr" "default").1
          1 "X" "fr" "default").1 "fr" "default").2 =
      some ⟨[⟨"X", [0, 1], 0⟩]⟩ ∧
    uniqueTexts ⟨[⟨"X", [0, 1], 0⟩]⟩ = ["X"] ∧
    objGet [("X", "")] "X" = some "" ∧
    outcomeOf (flushTraceSuccess ⟨[⟨"X", [0, 1], 0⟩]⟩ [("X", "")]) 0 =
      Outcome.rejected (Err.noTranslation "X") ∧
    outcomeOf (flushTraceSuccess ⟨[⟨"X", [0, 1], 0⟩]⟩ [("X", "")]) 1 =
      Outcome.pending :=
  ⟨rfl, rfl, rfl, rfl, rfl⟩

/-- C7 (amended): N callers requesting the same text X before any flush
(threshold not reached, X not already queued, callers fresh) produce a
single queue item whose waiter list is all N callers; the detached batch
lists X exactly once; the flush trace contains exactly one generator
invocation; and provided the generator's mapping assigns X a non-empty
value, every one of the N callers resolves with that same value. -/
theorem dedup_piggyback_resolution (cfg : Config) (s : BatchState)
    (c0 : CallerId) (cs : List CallerId) (X lang ctx : String) (m : Obj) (v : String)
    (hX : ∀ item ∈ (s.queues (getQueueKey lang ctx)).getD [], item.text ≠ X)
    (hsz : ((s.queues (getQueueKey lang ctx)).getD []).length + 1 < cfg.batchSize)
    (hfresh : ∀ c, c ∈ c0 :: cs → ∀ item ∈ (s.queues (getQueueKey lang ctx)).getD [],
      c ∉ itemCallers item)
    (hv : objGet m X = some v) (hv2 : v ≠ "") :
    (enqueueAll cfg s (c0 :: cs) X lang ctx).queues (getQueueKey lang ctx) =
      some ((s.queues (getQueueKey lang ctx)).getD [] ++ [⟨X, c0 :: cs, c0⟩]) ∧
    (flushDetach (enqueueAll cfg s (c0 :: cs) X lang ctx) lang ctx).2 =
      some ⟨(s.queues (getQueueKey lang ctx)).getD [] ++ [⟨X, c0 :: cs, c0⟩]⟩ ∧
    (uniqueTexts ⟨(s.queues (getQueueKey lang ctx)).getD [] ++
      [⟨X, c0 :: cs, c0⟩]⟩).count X = 1 ∧
    (flushTraceSuccess ⟨(s.queues (getQueueKey lang ctx)).getD [] ++
      [⟨X, c0 :: cs, c0⟩]⟩ m).countP isGenCall = 1 ∧
    ∀ c, c ∈ c0 :: cs →
      outcomeOf (flushTraceSuccess ⟨(s.queues (getQueueKey lang ctx)).getD [] ++
        [⟨X, c0 :: cs, c0⟩]⟩ m) c = Outcome.resolved v := by
  have hq1 := enqueue_first_push cfg s c0 X lang ctx hX hsz
  have hall := enqueueAll_piggyback cfg X lang ctx
    ((s.queues (getQueueKey lang ctx)).getD []) c0 hX cs
    (enqueue cfg s c0 X lang ctx).1 [c0] hq1
  have hcons : ([c0] ++ cs : List CallerId) = c0 :: cs := by simp
  rw [hcons] at hall
  have hfold : enqueueAll cfg s (c0 :: cs) X lang ctx =
      enqueueAll cfg (enqueue cfg s c0 X lang ctx).1 cs X lang ctx := by
    simp [enqueueAll]
  rw [hfold]
  refine ⟨hall, ?_, ?_, ?_, ?_⟩
  · simp [flushDetach, hall]
  · have hmemX : X ∈ ((s.queues (getQueueKey lang ctx)).getD [] ++
        [(⟨X, c0 :: cs, c0⟩ : QueueItem)]).map (fun item => item.text) := by
      simp
    have hmem2 : X ∈ uniqueTexts ⟨(s.queues (getQueueKey lang ctx)).getD [] ++
        [⟨X, c0 :: cs, c0⟩]⟩ := by
      rw [uniqueTexts, mem_dedupFirstAux]
      exact ⟨hmemX, by simp⟩
    exact List.count_eq_one_of_mem (nodup_dedupFirstAux _ _) hmem2
  · show (Ev.genCall (uniqueTexts _) :: Ev.persist m :: settleEvents m _).countP isGenCall = 1
    rw [List.countP_cons, List.countP_cons]
    have hz : (settleEvents m ((s.queues (getQueueKey lang ctx)).getD [] ++
        [⟨X, c0 :: cs, c0⟩])).countP isGenCall = 0 := by
      rw [List.countP_eq_zero]
      intro ev hev
      simp [settleEvents_no_genCall m _ ev hev]
    rw [hz]
    rfl
  · intro c hc
    show outcomeOf (Ev.genCall (uniqueTexts _) :: Ev.persist m ::
      settleEvents m ((s.queues (getQueueKey lang ctx)).getD [] ++
        (⟨X, c0 :: cs, c0⟩ : QueueItem) :: [])) c = Outcome.resolved v
    exact outcome_resolve_core _ m _ [] ⟨X, c0 :: cs, c0⟩ c v
      (hfresh c hc) hv hv2 hc

/-- C7 witness: callers 0 and 1 both request "X"; the detached batch holds
"X" once with both waiters, one generator call appears in the trace, and
both resolve with the generator's value. -/
theorem dedup_piggyback_resolution_witness :
    (enqueueAll cfg0 initState [0, 1] "X" "fr" "default").queues
      (getQueueKey "fr" "default") = some [⟨"X", [0, 1], 0⟩] ∧
    (uniqueTexts ⟨[⟨"X", [0, 1], 0⟩]⟩).count "X" = 1 ∧
    (flushTraceSuccess ⟨[⟨"X", [0, 1], 0⟩]⟩ [("X", "Bonjour")]).countP isGenCall = 1 ∧
    outcomeOf (flushTraceSuccess ⟨[⟨"X", [0, 1], 0⟩]⟩ [("X", "Bonjour")]) 0 =
      Outcome.resolved "Bonjour" ∧
    outcomeOf (flushTraceSuccess ⟨[⟨"X", [0, 1], 0⟩]⟩ [("X", "Bonjour")]) 1 =
      Outcome.resolved "Bonjour" := by
  have h := dedup_piggyback_resolution cfg0 initState 0 [1] "X" "fr" "default"
    [("X", "Bonjour")] "Bonjour" (by decide) (by decide) (by decide) rfl (by decide)
  exact ⟨h.1, h.2.2.1, h.2.2.2.1, h.2.2.2.2 0 (by simp), h.2.2.2.2 1 (by simp)⟩

end T8
